import Mathlib

/-!
Verification of the SHA-256 hashing core and the fixed-size digest codec of
the `experimental-rust-os` repository.  Machine integers are modelled as
`Nat` with explicit reduction modulo `2 ^ 32` (for `u32` words) and
`2 ^ 64` (for the byte counter), byte strings as `List Nat`, and fallible
operations return `Option` / `Except`.
-/

set_option maxRecDepth 10000

namespace OsCrypto

/-- Big-endian serialization of `n` into `k` bytes, modelling Rust's
`to_be_bytes` on a `k`-byte unsigned integer type. -/
def toBytesBE (k n : Nat) : List Nat :=
  (List.range k).map (fun i => (n >>> (8 * (k - 1 - i))) % 256)

/-- Model of `dst[start .. start + src.length].copy_from_slice(src)`:
overwrite the bytes of `dst` starting at `start` with the bytes of `src`. -/
def writeBytes (dst : List Nat) (start : Nat) (src : List Nat) : List Nat :=
  dst.take start ++ src ++ dst.drop (start + src.length)

/-- A zeroed 64-byte SHA-256 block (`Block::zeroed`). -/
def blockZero : List Nat := List.replicate 64 0

/-- The eight 32-bit working variables of the SHA-256 round loop. -/
structure Regs where
  a : Nat
  b : Nat
  c : Nat
  d : Nat
  e : Nat
  f : Nat
  g : Nat
  h : Nat
deriving DecidableEq

namespace Crypto

/-! Shallow embedding of `src/crypto/src/sha256.rs`. -/

/-- The `u32` modulus. -/
def M32 : Nat := 4294967296

/-- `u32::wrapping_add`. -/
def add32 (x y : Nat) : Nat := (x + y) % M32

/-- `u32::rotate_right`. -/
def rotr (x n : Nat) : Nat := ((x >>> n) ||| (x <<< (32 - n))) % M32

/-- Bitwise complement on `u32` (`!x`). -/
def not32 (x : Nat) : Nat := Nat.xor x (M32 - 1)

/-- `SHA256::ch`. -/
def ch (x y z : Nat) : Nat := Nat.xor (x &&& y) (not32 x &&& z)

/-- `SHA256::maj`. -/
def maj (x y z : Nat) : Nat := Nat.xor (Nat.xor (x &&& y) (x &&& z)) (y &&& z)

/-- `SHA256::sigma0`. -/
def sigma0 (x : Nat) : Nat := Nat.xor (Nat.xor (rotr x 2) (rotr x 13)) (rotr x 22)

/-- `SHA256::sigma1`. -/
def sigma1 (x : Nat) : Nat := Nat.xor (Nat.xor (rotr x 6) (rotr x 11)) (rotr x 25)

/-- `SHA256::gamma0`. -/
def gamma0 (x : Nat) : Nat := Nat.xor (Nat.xor (rotr x 7) (rotr x 18)) (x >>> 3)

/-- `SHA256::gamma1`. -/
def gamma1 (x : Nat) : Nat := Nat.xor (Nat.xor (rotr x 17) (rotr x 19)) (x >>> 10)

/-- `SHA256::SEED`, the initial hash vector. -/
def SEED : List Nat :=
  [1779033703, 3144134277, 1013904242, 2773480762, 1359893119, 2600822924,
   528734635, 1541459225]

/-- `SHA256::CONSTANTS`, the 64 round constants. -/
def CONSTANTS : List Nat :=
  [1116352408, 1899447441, 3049323471, 3921009573, 961987163, 1508970993,
   2453635748, 2870763221, 3624381080, 310598401, 607225278, 1426881987,
   1925078388, 2162078206, 2614888103, 3248222580, 3835390401, 4022224774,
   264347078, 604807628, 770255983, 1249150122, 1555081692, 1996064986,
   2554220882, 2821834349, 2952996808, 3210313671, 3336571891, 3584528711,
   113926993, 338241895, 666307205, 773529912, 1294757372, 1396182291,
   1695183700, 1986661051, 2177026350, 2456956037, 2730485921, 2820302411,
   3259730800, 3345764771, 3516065817, 3600352804, 4094571909, 275423344,
   430227734, 506948616, 659060556, 883997877, 958139571, 1322822218,
   1537002063, 1747873779, 1955562222, 2024104815, 2227730452, 2361852424,
   2428436474, 2756734187, 3204031479, 3329325298]

/-- The state of the `SHA256` engine: total byte count, 64-byte buffer,
and the eight 32-bit hash words. -/
structure SHA256 where
  len : Nat
  buffer : List Nat
  hash : List Nat
deriving DecidableEq

/-- `SHA256::new()`. -/
def new : SHA256 := ⟨0, blockZero, SEED⟩

/-- Load the `i`-th big-endian 32-bit word of a 64-byte block
(`u32::from_be_bytes` on `block[i*4 .. i*4+4]`). -/
def loadWord (block : List Nat) (i : Nat) : Nat :=
  (block.getD (i * 4) 0) <<< 24 ||| (block.getD (i * 4 + 1) 0) <<< 16 |||
    (block.getD (i * 4 + 2) 0) <<< 8 ||| block.getD (i * 4 + 3) 0

/-- One step of the message-schedule extension loop: append
`words[i-16] + gamma0(words[i-15]) + words[i-7] + gamma1(words[i-2])`
(all wrapping) where `i` is the current length. -/
def scheduleStep (ws : List Nat) : List Nat :=
  let n := ws.length
  ws ++ [add32 (add32 (add32 (ws.getD (n - 16) 0) (gamma0 (ws.getD (n - 15) 0)))
    (ws.getD (n - 7) 0)) (gamma1 (ws.getD (n - 2) 0))]

/-- Run `k` message-schedule extension steps. -/
def extendRounds : Nat → List Nat → List Nat
  | 0, ws => ws
  | k + 1, ws => extendRounds k (scheduleStep ws)

/-- The full 64-entry message schedule of a block: the 16 loaded words
followed by 48 extension steps. -/
def schedule (block : List Nat) : List Nat :=
  extendRounds 48 ((List.range 16).map (loadWord block))

/-- One round of the SHA-256 compression loop (`for i in 0..64` body). -/
def round (ws : List Nat) (r : Regs) (i : Nat) : Regs :=
  let s1 := sigma1 r.e
  let chv := ch r.e r.f r.g
  let temp1 := add32 (add32 (add32 (add32 r.h s1) chv) (CONSTANTS.getD i 0))
    (ws.getD i 0)
  let s0 := sigma0 r.a
  let majv := maj r.a r.b r.c
  let temp2 := add32 s0 majv
  { a := add32 temp1 temp2, b := r.a, c := r.b, d := r.c,
    e := add32 r.d temp1, f := r.e, g := r.f, h := r.g }

/-- `SHA256::update_block`: compress one 64-byte block into the state. -/
def update_block (st : SHA256) (block : List Nat) : SHA256 :=
  let ws := schedule block
  let r0 : Regs := ⟨st.hash.getD 0 0, st.hash.getD 1 0, st.hash.getD 2 0,
    st.hash.getD 3 0, st.hash.getD 4 0, st.hash.getD 5 0, st.hash.getD 6 0,
    st.hash.getD 7 0⟩
  let r := (List.range 64).foldl (round ws) r0
  { st with hash :=
      [add32 (st.hash.getD 0 0) r.a, add32 (st.hash.getD 1 0) r.b,
       add32 (st.hash.getD 2 0) r.c, add32 (st.hash.getD 3 0) r.d,
       add32 (st.hash.getD 4 0) r.e, add32 (st.hash.getD 5 0) r.f,
       add32 (st.hash.getD 6 0) r.g, add32 (st.hash.getD 7 0) r.h] }

/-- The body of `SHA256::update`'s `while` loop, with an explicit fuel
argument bounding the number of iterations (each iteration consumes at
least one byte of the remaining data). -/
def updateFuel : Nat → SHA256 → List Nat → SHA256
  | 0, st, _ => st
  | fuel + 1, st, data =>
    if data.isEmpty then st
    else
      let lenm := st.len % 64
      let space := 64 - lenm
      let copy := min space data.length
      let st1 : SHA256 :=
        ⟨st.len + copy, writeBytes st.buffer lenm (data.take copy), st.hash⟩
      let st2 := if st1.len % 64 = 0 then update_block st1 st1.buffer else st1
      updateFuel fuel st2 (data.drop copy)

/-- `<SHA256 as Hasher>::update`. -/
def update (st : SHA256) (data : List Nat) : SHA256 :=
  updateFuel data.length st data

/-- `<SHA256 as Hasher>::digest`: pad, compress the final block(s), and
serialize the eight state words big-endian. -/
def digest (st : SHA256) : List Nat :=
  let length := st.len * 8 % 18446744073709551616
  let tail := st.buffer.take (st.len % 64)
  let padded1 := (writeBytes blockZero 0 tail).set tail.length 0x80
  let stp := if 56 ≤ tail.length then (update_block st padded1, blockZero)
    else (st, padded1)
  let padded2 := writeBytes stp.2 56 (toBytesBE 8 length)
  let st3 := update_block stp.1 padded2
  (st3.hash.map (toBytesBE 4)).flatten

/-- `crypto::sha256::hash_bytes`. -/
def hash_bytes (bytes : List Nat) : List Nat := digest (update new bytes)

/-- A single-byte reformulation of one iteration of `update`'s loop: write
the byte at `len % 64`, bump `len`, and compress when the buffer fills.
Used to relate the chunked loop to a per-byte fold. -/
def step1 (st : SHA256) (b : Nat) : SHA256 :=
  let st1 : SHA256 :=
    ⟨st.len + 1, writeBytes st.buffer (st.len % 64) [b], st.hash⟩
  if st1.len % 64 = 0 then update_block st1 st1.buffer else st1

/-- `u32::to_be_bytes` (the canonical `Hashable` encoding of `u32`). -/
def u32_to_be_bytes (n : Nat) : List Nat := toBytesBE 4 n

/-- `u8::to_be_bytes`. -/
def u8_to_be_bytes (n : Nat) : List Nat := toBytesBE 1 n

/-- `u16::to_be_bytes`. -/
def u16_to_be_bytes (n : Nat) : List Nat := toBytesBE 2 n

/-- `u64::to_be_bytes`. -/
def u64_to_be_bytes (n : Nat) : List Nat := toBytesBE 8 n

/-- `u128::to_be_bytes`. -/
def u128_to_be_bytes (n : Nat) : List Nat := toBytesBE 16 n

/-- `i32::to_be_bytes`: the big-endian bytes of the 32-bit two's-complement
bit pattern of the signed value. -/
def i32_to_be_bytes (z : Int) : List Nat :=
  toBytesBE 4 (z % 4294967296).toNat

/-- `i8::to_be_bytes`: the 8-bit two's-complement bit pattern. -/
def i8_to_be_bytes (z : Int) : List Nat :=
  toBytesBE 1 (z % 256).toNat

/-- `i16::to_be_bytes`: the big-endian bytes of the 16-bit two's-complement
bit pattern. -/
def i16_to_be_bytes (z : Int) : List Nat :=
  toBytesBE 2 (z % 65536).toNat

/-- `i64::to_be_bytes`: the big-endian bytes of the 64-bit two's-complement
bit pattern. -/
def i64_to_be_bytes (z : Int) : List Nat :=
  toBytesBE 8 (z % 18446744073709551616).toNat

/-- `i128::to_be_bytes`: the big-endian bytes of the 128-bit
two's-complement bit pattern. -/
def i128_to_be_bytes (z : Int) : List Nat :=
  toBytesBE 16 (z % 340282366920938463463374607431768211456).toNat

/-- `crypto::sha256::hash` at type `u8`: the `Hashable` impl feeds the
big-endian bytes of the integer into the hasher. -/
def hash_u8 (n : Nat) : List Nat := digest (update new (u8_to_be_bytes n))

/-- `crypto::sha256::hash` at type `u16`. -/
def hash_u16 (n : Nat) : List Nat := digest (update new (u16_to_be_bytes n))

/-- `crypto::sha256::hash` at type `u32`. -/
def hash_u32 (n : Nat) : List Nat := digest (update new (u32_to_be_bytes n))

/-- `crypto::sha256::hash` at type `u64`. -/
def hash_u64 (n : Nat) : List Nat := digest (update new (u64_to_be_bytes n))

/-- `crypto::sha256::hash` at type `u128`. -/
def hash_u128 (n : Nat) : List Nat := digest (update new (u128_to_be_bytes n))

/-- `crypto::sha256::hash` at type `i8`. -/
def hash_i8 (z : Int) : List Nat := digest (update new (i8_to_be_bytes z))

/-- `crypto::sha256::hash` at type `i16`. -/
def hash_i16 (z : Int) : List Nat := digest (update new (i16_to_be_bytes z))

/-- `crypto::sha256::hash` at type `i32`. -/
def hash_i32 (z : Int) : List Nat := digest (update new (i32_to_be_bytes z))

/-- `crypto::sha256::hash` at type `i64`. -/
def hash_i64 (z : Int) : List Nat := digest (update new (i64_to_be_bytes z))

/-- `crypto::sha256::hash` at type `i128`. -/
def hash_i128 (z : Int) : List Nat := digest (update new (i128_to_be_bytes z))

/-- `crypto::sha256::hash` at type `bool`: the `Hashable` impl feeds the
single byte `*self as u8`. -/
def hash_bool (b : Bool) : List Nat :=
  digest (update new [if b then 1 else 0])

/-- `crypto::sha256::hash` at type `[u8]`: the slice impl calls
`update_hash` on each element in order, and each `u8` feeds its one
big-endian byte. -/
def hash_slice_u8 (l : List Nat) : List Nat :=
  digest (l.foldl (fun st v => update st (u8_to_be_bytes v)) new)

/-! Definitions written from the FIPS 180-4 wording of the specification
(spec section 4.5), used to state the refinement claims about
`update_block` and `digest`. -/

/-- Modelled from the spec: `Ch(x,y,z) = (x ∧ y) ⊕ (¬x ∧ z)`. -/
def specCh (x y z : Nat) : Nat := Nat.xor (x &&& y) (not32 x &&& z)

/-- Modelled from the spec: `Maj(x,y,z) = (x ∧ y) ⊕ (x ∧ z) ⊕ (y ∧ z)`. -/
def specMaj (x y z : Nat) : Nat :=
  Nat.xor (Nat.xor (x &&& y) (x &&& z)) (y &&& z)

/-- Modelled from the spec: `Σ0(x) = rotr(x,2) ⊕ rotr(x,13) ⊕ rotr(x,22)`. -/
def specSigmaBig0 (x : Nat) : Nat :=
  Nat.xor (Nat.xor (rotr x 2) (rotr x 13)) (rotr x 22)

/-- Modelled from the spec: `Σ1(x) = rotr(x,6) ⊕ rotr(x,11) ⊕ rotr(x,25)`. -/
def specSigmaBig1 (x : Nat) : Nat :=
  Nat.xor (Nat.xor (rotr x 6) (rotr x 11)) (rotr x 25)

/-- Modelled from the spec: `σ0(x) = rotr(x,7) ⊕ rotr(x,18) ⊕ (x ≫ 3)`. -/
def specSigmaSmall0 (x : Nat) : Nat :=
  Nat.xor (Nat.xor (rotr x 7) (rotr x 18)) (x >>> 3)

/-- Modelled from the spec: `σ1(x) = rotr(x,17) ⊕ rotr(x,19) ⊕ (x ≫ 10)`. -/
def specSigmaSmall1 (x : Nat) : Nat :=
  Nat.xor (Nat.xor (rotr x 17) (rotr x 19)) (x >>> 10)

/-- Modelled from the spec: the message-schedule word function.
`W[i]` for `i < 16` is the `i`-th big-endian word of the block, and for
`16 ≤ i`, `W[i] = W[i−16] + σ0(W[i−15]) + W[i−7] + σ1(W[i−2])`
modulo `2^32`. -/
def specW (block : List Nat) (i : Nat) : Nat :=
  if i < 16 then loadWord block i
  else (specW block (i - 16) + specSigmaSmall0 (specW block (i - 15)) +
    specW block (i - 7) + specSigmaSmall1 (specW block (i - 2))) % 4294967296
termination_by i
decreasing_by
  all_goals omega

/-- Modelled from the spec: one round of step 4 of the block compression,
`T1 = h + Σ1(e) + Ch(e,f,g) + K[i] + W[i]`, `T2 = Σ0(a) + Maj(a,b,c)`,
then the shift of the working variables, all modulo `2^32`. -/
def specRound (W : Nat → Nat) (i : Nat) (r : Regs) : Regs :=
  let T1 := (r.h + specSigmaBig1 r.e + specCh r.e r.f r.g +
    CONSTANTS.getD i 0 + W i) % 4294967296
  let T2 := (specSigmaBig0 r.a + specMaj r.a r.b r.c) % 4294967296
  ⟨(T1 + T2) % 4294967296, r.a, r.b, r.c, (r.d + T1) % 4294967296,
    r.e, r.f, r.g⟩

/-- Modelled from the spec: rounds `0, 1, ..., n-1` applied in order. -/
def specRounds (W : Nat → Nat) : Nat → Regs → Regs
  | 0, r => r
  | n + 1, r => specRound W n (specRounds W n r)

/-- Modelled from the spec: the full FIPS 180-4 block compression of
section 4.5 — load and extend the schedule, run the 64 rounds from the
state `(a,...,h) = H`, and add the working variables back into `H`
modulo `2^32`. -/
def specCompress (H : List Nat) (block : List Nat) : List Nat :=
  let W := specW block
  let r0 : Regs := ⟨H.getD 0 0, H.getD 1 0, H.getD 2 0, H.getD 3 0,
    H.getD 4 0, H.getD 5 0, H.getD 6 0, H.getD 7 0⟩
  let r := specRounds W 64 r0
  [(H.getD 0 0 + r.a) % 4294967296, (H.getD 1 0 + r.b) % 4294967296,
   (H.getD 2 0 + r.c) % 4294967296, (H.getD 3 0 + r.d) % 4294967296,
   (H.getD 4 0 + r.e) % 4294967296, (H.getD 5 0 + r.f) % 4294967296,
   (H.getD 6 0 + r.g) % 4294967296, (H.getD 7 0 + r.h) % 4294967296]

/-- Modelled from the spec: the padding blocks of the finalize step.
The tail `T` and the `0x80` marker go into a zeroed block `P`; when
`|T| ≥ 56` the block `P` stands alone and the 64-bit big-endian bit
length goes into a second zeroed block, otherwise the length goes into
the last 8 bytes of `P` itself. -/
def specPadBlocks (T : List Nat) (L : Nat) : List (List Nat) :=
  let P := (writeBytes blockZero 0 T).set T.length 0x80
  if 56 ≤ T.length then [P, writeBytes blockZero 56 (toBytesBE 8 L)]
  else [writeBytes P 56 (toBytesBE 8 L)]

/-! Bounds-checked (`Option`-valued) variants of the hashing path: every
slice operation of the Rust source is modelled with its bounds check,
and `none` models a panic.  These are used to state that no panic branch
is reachable. -/

/-- `&l[a..b]`: panics unless `a ≤ b ≤ l.len()`. -/
def sliceCheck (l : List Nat) (a b : Nat) : Option (List Nat) :=
  if a ≤ b ∧ b ≤ l.length then some ((l.take b).drop a) else none

/-- `dst[a..b].copy_from_slice(src)`: panics unless `a ≤ b ≤ dst.len()`
and the two slices have equal length. -/
def copyWithin (dst : List Nat) (a b : Nat) (src : List Nat) :
    Option (List Nat) :=
  if a ≤ b ∧ b ≤ dst.length ∧ src.length = b - a then
    some (writeBytes dst a src)
  else none

/-- `l[i] = v`: panics unless `i < l.len()`. -/
def setChecked (l : List Nat) (i v : Nat) : Option (List Nat) :=
  if i < l.length then some (l.set i v) else none

/-- The checked big-endian word load of `update_block`
(`block[i*4]`, ..., `block[i*4+3]`). -/
def loadWordChecked (block : List Nat) (i : Nat) : Option Nat :=
  match block[i * 4]?, block[i * 4 + 1]?, block[i * 4 + 2]?,
      block[i * 4 + 3]? with
  | some b0, some b1, some b2, some b3 =>
    some (b0 <<< 24 ||| b1 <<< 16 ||| b2 <<< 8 ||| b3)
  | _, _, _, _ => none

/-- `SHA256::update_block` with checked block indexing (the remaining
indices of the loops are constants below 64 into the fixed-size `words`,
`CONSTANTS` and `hash` arrays). -/
def update_blockChecked (st : SHA256) (block : List Nat) : Option SHA256 :=
  match (List.range 16).mapM (loadWordChecked block) with
  | none => none
  | some w0 =>
    let ws := extendRounds 48 w0
    let r0 : Regs := ⟨st.hash.getD 0 0, st.hash.getD 1 0, st.hash.getD 2 0,
      st.hash.getD 3 0, st.hash.getD 4 0, st.hash.getD 5 0, st.hash.getD 6 0,
      st.hash.getD 7 0⟩
    let r := (List.range 64).foldl (round ws) r0
    some { st with hash :=
      [add32 (st.hash.getD 0 0) r.a, add32 (st.hash.getD 1 0) r.b,
       add32 (st.hash.getD 2 0) r.c, add32 (st.hash.getD 3 0) r.d,
       add32 (st.hash.getD 4 0) r.e, add32 (st.hash.getD 5 0) r.f,
       add32 (st.hash.getD 6 0) r.g, add32 (st.hash.getD 7 0) r.h] }

/-- The checked `update` loop: slice reads of `data`, the slice write
into the buffer, and the debug-mode `u64` overflow of `self.len` are all
modelled as possible panics. -/
def updateFuelChecked : Nat → SHA256 → List Nat → Option SHA256
  | 0, st, _ => some st
  | fuel + 1, st, data =>
    if data.isEmpty then some st
    else
      let lenm := st.len % 64
      let space := 64 - lenm
      let copy := min space data.length
      match sliceCheck data 0 copy with
      | none => none
      | some chunk =>
        match copyWithin st.buffer lenm (lenm + copy) chunk with
        | none => none
        | some buf =>
          if st.len + copy < 18446744073709551616 then
            let st1 : SHA256 := ⟨st.len + copy, buf, st.hash⟩
            match (if st1.len % 64 = 0 then update_blockChecked st1 st1.buffer
                else some st1) with
            | none => none
            | some st2 => updateFuelChecked fuel st2 (data.drop copy)
          else none

/-- Checked `<SHA256 as Hasher>::update`. -/
def updateChecked (st : SHA256) (data : List Nat) : Option SHA256 :=
  updateFuelChecked data.length st data

/-- Checked `<SHA256 as Hasher>::digest`. -/
def digestChecked (st : SHA256) : Option (List Nat) :=
  let length := st.len * 8 % 18446744073709551616
  match sliceCheck st.buffer 0 (st.len % 64) with
  | none => none
  | some tail =>
    match copyWithin blockZero 0 tail.length tail with
    | none => none
    | some p0 =>
      match setChecked p0 tail.length 0x80 with
      | none => none
      | some p1 =>
        match (if 56 ≤ tail.length then
            (update_blockChecked st p1).map (fun s => (s, blockZero))
          else some (st, p1)) with
        | none => none
        | some stp =>
          match copyWithin stp.2 56 64 (toBytesBE 8 length) with
          | none => none
          | some p2 =>
            match update_blockChecked stp.1 p2 with
            | none => none
            | some st3 => some ((st3.hash.map (toBytesBE 4)).flatten)

/-- The structural invariant the Rust types enforce: the buffer is a
64-byte array and the hash is an 8-word array. -/
def WF (st : SHA256) : Prop := st.buffer.length = 64 ∧ st.hash.length = 8

instance (st : SHA256) : Decidable (WF st) :=
  inferInstanceAs (Decidable (st.buffer.length = 64 ∧ st.hash.length = 8))

end Crypto

namespace CoreCrypto

/-! Shallow embedding of the digest codec of `src/core/src/crypto.rs`
(`FixedDigest<N>` hex parsing and `Display` formatting).  Strings are
modelled by their byte lists; `char` values carried in errors are
modelled by their Unicode scalar value (for a `u8` byte `b`,
`char::from(b)` has scalar value `b`). -/

/-- `DigestErrorKind`. -/
inductive DigestErrorKind where
  | BadChar : Nat → DigestErrorKind
  | BadLength : Nat → DigestErrorKind
deriving DecidableEq

/-- `ParseDigestError`. -/
structure ParseDigestError where
  kind : DigestErrorKind
deriving DecidableEq

instance {ε α : Type} [DecidableEq ε] [DecidableEq α] :
    DecidableEq (Except ε α) := fun a b =>
  match a, b with
  | .ok x, .ok y =>
    if h : x = y then .isTrue (congrArg Except.ok h)
    else .isFalse (fun hc => h (Except.ok.inj hc))
  | .error x, .error y =>
    if h : x = y then .isTrue (congrArg Except.error h)
    else .isFalse (fun hc => h (Except.error.inj hc))
  | .ok _, .error _ => .isFalse (fun hc => Except.noConfusion hc)
  | .error _, .ok _ => .isFalse (fun hc => Except.noConfusion hc)

/-- `FixedDigest::hex_digit_to_u8`: decode one ASCII hex digit, or report
the offending character.  The `char` range patterns of the Rust `match`
become comparisons on the scalar value (48-57 is `'0'..='9'`, 97/65 is
`'a' | 'A'`, and so on). -/
def hex_digit_to_u8 (ascii : Nat) : Except ParseDigestError Nat :=
  if 48 ≤ ascii ∧ ascii ≤ 57 then .ok (ascii - 48)
  else if ascii = 97 ∨ ascii = 65 then .ok 10
  else if ascii = 98 ∨ ascii = 66 then .ok 11
  else if ascii = 99 ∨ ascii = 67 then .ok 12
  else if ascii = 100 ∨ ascii = 68 then .ok 13
  else if ascii = 101 ∨ ascii = 69 then .ok 14
  else if ascii = 102 ∨ ascii = 70 then .ok 15
  else .error ⟨.BadChar ascii⟩

/-- The `for i in 0..N` loop of `FixedDigest::from_str`, consuming the
length-checked byte string two characters at a time; the first decoding
failure is propagated (`?` checks `bytes[2i]` before `bytes[2i+1]`). -/
def fromStrLoop : Nat → List Nat → Except ParseDigestError (List Nat)
  | 0, _ => .ok []
  | n + 1, c0 :: c1 :: rest =>
    match hex_digit_to_u8 c0 with
    | .error e => .error e
    | .ok hi =>
      match hex_digit_to_u8 c1 with
      | .error e => .error e
      | .ok lo =>
        match fromStrLoop n rest with
        | .error e => .error e
        | .ok ds => .ok ((hi <<< 4 ||| lo) :: ds)
  | _ + 1, _ => .ok []

/-- `FixedDigest::<N>::from_str`: reject strings whose byte length is not
`2 * N`, then decode the `N` byte pairs. -/
def from_str (N : Nat) (s : List Nat) : Except ParseDigestError (List Nat) :=
  if s.length ≠ 2 * N then .error ⟨.BadLength s.length⟩
  else fromStrLoop N s

/-- `FixedDigest::hex_digit_to_u8_unchecked`: same mapping, but the
non-hex case is the `unreachable!()` panic, modelled as `none`. -/
def hex_digit_to_u8_unchecked (ascii : Nat) : Option Nat :=
  if 48 ≤ ascii ∧ ascii ≤ 57 then some (ascii - 48)
  else if ascii = 97 ∨ ascii = 65 then some 10
  else if ascii = 98 ∨ ascii = 66 then some 11
  else if ascii = 99 ∨ ascii = 67 then some 12
  else if ascii = 100 ∨ ascii = 68 then some 13
  else if ascii = 101 ∨ ascii = 69 then some 14
  else if ascii = 102 ∨ ascii = 70 then some 15
  else none

/-- The loop of `FixedDigest::from_str_unchecked`; running out of input
models the out-of-bounds panic of `bytes[i * 2]` / `bytes[i * 2 + 1]`. -/
def fromStrUncheckedLoop : Nat → List Nat → Option (List Nat)
  | 0, _ => some []
  | n + 1, c0 :: c1 :: rest =>
    match hex_digit_to_u8_unchecked c0, hex_digit_to_u8_unchecked c1,
        fromStrUncheckedLoop n rest with
    | some hi, some lo, some ds => some ((hi <<< 4 ||| lo) :: ds)
    | _, _, _ => none
  | _ + 1, _ => none

/-- `FixedDigest::<N>::from_str_unchecked` (`none` models a panic). -/
def from_str_unchecked (N : Nat) (s : List Nat) : Option (List Nat) :=
  fromStrUncheckedLoop N s

/-- The ASCII code of the lowercase hex digit for a nibble, as produced
by the `{:02x}` format specifier. -/
def hexCharOfNibble (n : Nat) : Nat := if n < 10 then 48 + n else 87 + n

/-- One byte rendered by `write!(f, "{:02x}", v)`: two lowercase hex
characters, most-significant nibble first. -/
def formatByte (b : Nat) : List Nat := [hexCharOfNibble (b / 16), hexCharOfNibble (b % 16)]

/-- The `Display` impl of `FixedDigest`: each byte as two lowercase hex
characters, in order. -/
def format (d : List Nat) : List Nat := (d.map formatByte).flatten

/-- The byte is an ASCII hexadecimal digit (`[0-9a-fA-F]`). -/
def isHex (c : Nat) : Prop :=
  (48 ≤ c ∧ c ≤ 57) ∨ (97 ≤ c ∧ c ≤ 102) ∨ (65 ≤ c ∧ c ≤ 70)

instance (c : Nat) : Decidable (isHex c) :=
  inferInstanceAs (Decidable ((48 ≤ c ∧ c ≤ 57) ∨ (97 ≤ c ∧ c ≤ 102) ∨ (65 ≤ c ∧ c ≤ 70)))

/-- The nibble value of an ASCII hex digit (unspecified on other bytes). -/
def hexVal (c : Nat) : Nat :=
  if 48 ≤ c ∧ c ≤ 57 then c - 48
  else if 97 ≤ c ∧ c ≤ 102 then c - 87
  else if 65 ≤ c ∧ c ≤ 70 then c - 55
  else 0

/-- ASCII lowercase folding of one byte. -/
def toLowerAscii (c : Nat) : Nat := if 65 ≤ c ∧ c ≤ 90 then c + 32 else c

end CoreCrypto

/-- The byte list of an ASCII string literal (each character's scalar
value), used to state the known-answer hex vectors. -/
def asciiStr (s : String) : List Nat := s.data.map Char.toNat

namespace CoreSha

/-! Shallow embedding of the second SHA-256 engine,
`src/core/src/crypto/sha256.rs` (the `core` crate's copy, whose digest is
its local `Digest([u8; 32])` type). -/

/-- `SHA256::SEED` of the `core` crate's engine. -/
def SEED : List Nat :=
  [1779033703, 3144134277, 1013904242, 2773480762, 1359893119, 2600822924,
   528734635, 1541459225]

/-- `SHA256::CONSTANTS` of the `core` crate's engine. -/
def CONSTANTS : List Nat :=
  [1116352408, 1899447441, 3049323471, 3921009573, 961987163, 1508970993,
   2453635748, 2870763221, 3624381080, 310598401, 607225278, 1426881987,
   1925078388, 2162078206, 2614888103, 3248222580, 3835390401, 4022224774,
   264347078, 604807628, 770255983, 1249150122, 1555081692, 1996064986,
   2554220882, 2821834349, 2952996808, 3210313671, 3336571891, 3584528711,
   113926993, 338241895, 666307205, 773529912, 1294757372, 1396182291,
   1695183700, 1986661051, 2177026350, 2456956037, 2730485921, 2820302411,
   3259730800, 3345764771, 3516065817, 3600352804, 4094571909, 275423344,
   430227734, 506948616, 659060556, 883997877, 958139571, 1322822218,
   1537002063, 1747873779, 1955562222, 2024104815, 2227730452, 2361852424,
   2428436474, 2756734187, 3204031479, 3329325298]

/-- `u32::wrapping_add` (as used by the `core` crate's engine). -/
def add32 (x y : Nat) : Nat := (x + y) % 4294967296

/-- `u32::rotate_right`. -/
def rotr (x n : Nat) : Nat := ((x >>> n) ||| (x <<< (32 - n))) % 4294967296

/-- Bitwise complement on `u32`. -/
def not32 (x : Nat) : Nat := Nat.xor x 4294967295

/-- `SHA256::ch` of the `core` crate's engine. -/
def ch (x y z : Nat) : Nat := Nat.xor (x &&& y) (not32 x &&& z)

/-- `SHA256::maj`. -/
def maj (x y z : Nat) : Nat := Nat.xor (Nat.xor (x &&& y) (x &&& z)) (y &&& z)

/-- `SHA256::sigma0`. -/
def sigma0 (x : Nat) : Nat := Nat.xor (Nat.xor (rotr x 2) (rotr x 13)) (rotr x 22)

/-- `SHA256::sigma1`. -/
def sigma1 (x : Nat) : Nat := Nat.xor (Nat.xor (rotr x 6) (rotr x 11)) (rotr x 25)

/-- `SHA256::gamma0`. -/
def gamma0 (x : Nat) : Nat := Nat.xor (Nat.xor (rotr x 7) (rotr x 18)) (x >>> 3)

/-- `SHA256::gamma1`. -/
def gamma1 (x : Nat) : Nat := Nat.xor (Nat.xor (rotr x 17) (rotr x 19)) (x >>> 10)

/-- The state of the `core` crate's `SHA256` engine. -/
structure SHA256 where
  len : Nat
  buffer : List Nat
  hash : List Nat
deriving DecidableEq

/-- `SHA256::new()`. -/
def new : SHA256 := ⟨0, blockZero, SEED⟩

/-- Big-endian word load of the `core` engine's `update_block`. -/
def loadWord (block : List Nat) (i : Nat) : Nat :=
  (block.getD (i * 4) 0) <<< 24 ||| (block.getD (i * 4 + 1) 0) <<< 16 |||
    (block.getD (i * 4 + 2) 0) <<< 8 ||| block.getD (i * 4 + 3) 0

/-- One message-schedule extension step of the `core` engine. -/
def scheduleStep (ws : List Nat) : List Nat :=
  let n := ws.length
  ws ++ [add32 (add32 (add32 (ws.getD (n - 16) 0) (gamma0 (ws.getD (n - 15) 0)))
    (ws.getD (n - 7) 0)) (gamma1 (ws.getD (n - 2) 0))]

/-- Run `k` message-schedule extension steps. -/
def extendRounds : Nat → List Nat → List Nat
  | 0, ws => ws
  | k + 1, ws => extendRounds k (scheduleStep ws)

/-- The 64-entry message schedule of the `core` engine. -/
def schedule (block : List Nat) : List Nat :=
  extendRounds 48 ((List.range 16).map (loadWord block))

/-- One round of the `core` engine's compression loop. -/
def round (ws : List Nat) (r : Regs) (i : Nat) : Regs :=
  let s1 := sigma1 r.e
  let chv := ch r.e r.f r.g
  let temp1 := add32 (add32 (add32 (add32 r.h s1) chv) (CONSTANTS.getD i 0))
    (ws.getD i 0)
  let s0 := sigma0 r.a
  let majv := maj r.a r.b r.c
  let temp2 := add32 s0 majv
  { a := add32 temp1 temp2, b := r.a, c := r.b, d := r.c,
    e := add32 r.d temp1, f := r.e, g := r.f, h := r.g }

/-- `SHA256::update_block` of the `core` crate's engine. -/
def update_block (st : SHA256) (block : List Nat) : SHA256 :=
  let ws := schedule block
  let r0 : Regs := ⟨st.hash.getD 0 0, st.hash.getD 1 0, st.hash.getD 2 0,
    st.hash.getD 3 0, st.hash.getD 4 0, st.hash.getD 5 0, st.hash.getD 6 0,
    st.hash.getD 7 0⟩
  let r := (List.range 64).foldl (round ws) r0
  { st with hash :=
      [add32 (st.hash.getD 0 0) r.a, add32 (st.hash.getD 1 0) r.b,
       add32 (st.hash.getD 2 0) r.c, add32 (st.hash.getD 3 0) r.d,
       add32 (st.hash.getD 4 0) r.e, add32 (st.hash.getD 5 0) r.f,
       add32 (st.hash.getD 6 0) r.g, add32 (st.hash.getD 7 0) r.h] }

/-- The body of the `core` engine's `update` loop, fuelled. -/
def updateFuel : Nat → SHA256 → List Nat → SHA256
  | 0, st, _ => st
  | fuel + 1, st, data =>
    if data.isEmpty then st
    else
      let lenm := st.len % 64
      let space := 64 - lenm
      let copy := min space data.length
      let st1 : SHA256 :=
        ⟨st.len + copy, writeBytes st.buffer lenm (data.take copy), st.hash⟩
      let st2 := if st1.len % 64 = 0 then update_block st1 st1.buffer else st1
      updateFuel fuel st2 (data.drop copy)

/-- `<SHA256 as Hasher>::update` of the `core` crate's engine. -/
def update (st : SHA256) (data : List Nat) : SHA256 :=
  updateFuel data.length st data

/-- `<SHA256 as Hasher>::digest` of the `core` crate's engine, returning
the 32 bytes of its local `Digest` type. -/
def digest (st : SHA256) : List Nat :=
  let length := st.len * 8 % 18446744073709551616
  let tail := st.buffer.take (st.len % 64)
  let padded1 := (writeBytes blockZero 0 tail).set tail.length 0x80
  let stp := if 56 ≤ tail.length then (update_block st padded1, blockZero)
    else (st, padded1)
  let padded2 := writeBytes stp.2 56 (toBytesBE 8 length)
  let st3 := update_block stp.1 padded2
  (st3.hash.map (toBytesBE 4)).flatten

end CoreSha

/-- The field-for-field correspondence between the states of the two
engine variants. -/
def conv (st : Crypto.SHA256) : CoreSha.SHA256 :=
  ⟨st.len, st.buffer, st.hash⟩

/-! ## Theorems -/

theorem writeBytes_zero (l bs : List Nat) :
    writeBytes l 0 bs = bs ++ l.drop bs.length := by
  simp [writeBytes]

theorem writeBytes_succ_cons (x : Nat) (l : List Nat) (s : Nat) (bs : List Nat) :
    writeBytes (x :: l) (s + 1) bs = x :: writeBytes l s bs := by
  simp only [writeBytes, List.take_succ_cons, Nat.add_right_comm s 1 bs.length,
    List.drop_succ_cons, List.cons_append]

theorem writeBytes_nil_dst (s : Nat) (bs : List Nat) :
    writeBytes [] s bs = bs := by
  simp [writeBytes]

theorem writeBytes_cons (buf : List Nat) (s : Nat) (b : Nat) (bs : List Nat) :
    writeBytes (writeBytes buf s [b]) (s + 1) bs = writeBytes buf s (b :: bs) := by
  induction buf generalizing s with
  | nil =>
    simp only [writeBytes_nil_dst]
    cases s with
    | zero => simp [writeBytes]
    | succ s =>
      simp only [writeBytes, List.singleton_append, List.length_cons]
      rw [List.take_of_length_le (by simp only [List.length_singleton]; omega),
        List.drop_eq_nil_of_le (by simp only [List.length_singleton]; omega)]
      simp
  | cons x buf ih =>
    cases s with
    | zero => simp [writeBytes_zero, writeBytes_succ_cons]
    | succ s => simp only [writeBytes_succ_cons, ih]

theorem writeBytes_length (buf : List Nat) (s : Nat) (bs : List Nat)
    (h : s + bs.length ≤ buf.length) :
    (writeBytes buf s bs).length = buf.length := by
  simp only [writeBytes, List.length_append, List.length_take, List.length_drop]
  rcases le_total s buf.length with hc | hc
  · rw [min_eq_left hc]
    omega
  · rw [min_eq_right hc]
    omega

namespace Crypto

theorem update_block_len (st : SHA256) (block : List Nat) :
    (update_block st block).len = st.len := rfl

theorem update_block_buffer (st : SHA256) (block : List Nat) :
    (update_block st block).buffer = st.buffer := rfl

theorem chunk_foldl (bs : List Nat) (st : SHA256) (hne : bs ≠ [])
    (hle : st.len % 64 + bs.length ≤ 64) :
    bs.foldl step1 st =
      if (st.len + bs.length) % 64 = 0 then
        update_block ⟨st.len + bs.length, writeBytes st.buffer (st.len % 64) bs, st.hash⟩
          (writeBytes st.buffer (st.len % 64) bs)
      else ⟨st.len + bs.length, writeBytes st.buffer (st.len % 64) bs, st.hash⟩ := by
  induction bs generalizing st with
  | nil => exact absurd rfl hne
  | cons b bs ih =>
    cases bs with
    | nil =>
      simp only [List.foldl_cons, List.foldl_nil, step1, List.length_cons,
        List.length_nil]
    | cons b' bs' =>
      simp only [List.length_cons] at hle
      have hmod : (st.len + 1) % 64 = st.len % 64 + 1 := by omega
      have hne2 : ¬ ((st.len + 1) % 64 = 0) := by omega
      have hstep : step1 st b =
          ⟨st.len + 1, writeBytes st.buffer (st.len % 64) [b], st.hash⟩ := by
        simp only [step1, if_neg hne2]
      rw [List.foldl_cons, hstep,
        ih _ (List.cons_ne_nil _ _) (by simp only [List.length_cons]; omega)]
      dsimp only
      rw [hmod, writeBytes_cons]
      have h1 : st.len + 1 + (bs'.length + 1) = st.len + (bs'.length + 1 + 1) := by
        omega
      simp only [List.length_cons, h1]

theorem updateFuel_eq_foldl (fuel : Nat) :
    ∀ (data : List Nat) (st : SHA256), data.length ≤ fuel →
      updateFuel fuel st data = data.foldl step1 st := by
  induction fuel with
  | zero =>
    intro data st hlen
    have : data = [] := List.length_eq_zero.mp (Nat.le_zero.mp hlen)
    subst this
    simp [updateFuel]
  | succ fuel ih =>
    intro data st hlen
    by_cases hd : data.isEmpty
    · rw [List.isEmpty_iff] at hd
      subst hd
      simp [updateFuel]
    · rw [updateFuel, if_neg (by simpa using hd)]
      rw [List.isEmpty_iff] at hd
      have hpos : 0 < data.length := List.length_pos.mpr hd
      have hcopylen : (data.take (min (64 - st.len % 64) data.length)).length
          = min (64 - st.len % 64) data.length := by
        simp [List.length_take]
      have hle2 : st.len % 64 +
          (data.take (min (64 - st.len % 64) data.length)).length ≤ 64 := by
        rw [hcopylen]; omega
      have hne : data.take (min (64 - st.len % 64) data.length) ≠ [] := by
        intro hx
        have h0 := congrArg List.length hx
        rw [hcopylen] at h0
        simp only [List.length_nil] at h0
        rcases le_total (64 - st.len % 64) data.length with hc | hc
        · rw [min_eq_left hc] at h0
          omega
        · rw [min_eq_right hc] at h0
          omega
      have hdrop : (data.drop (min (64 - st.len % 64) data.length)).length ≤ fuel := by
        rw [List.length_drop]
        rcases le_total (64 - st.len % 64) data.length with hc | hc
        · rw [min_eq_left hc]
          omega
        · rw [min_eq_right hc]
          omega
      rw [ih _ _ hdrop]
      conv_rhs =>
        rw [← List.take_append_drop (min (64 - st.len % 64) data.length) data,
          List.foldl_append]
      rw [chunk_foldl _ _ hne hle2, hcopylen]

theorem update_eq_foldl (st : SHA256) (data : List Nat) :
    update st data = data.foldl step1 st :=
  updateFuel_eq_foldl _ _ _ le_rfl

theorem update_nil (st : SHA256) : update st [] = st := rfl

theorem update_append (st : SHA256) (a b : List Nat) :
    update st (a ++ b) = update (update st a) b := by
  simp [update_eq_foldl, List.foldl_append]

theorem foldl_update_flatten (chunks : List (List Nat)) (st : SHA256) :
    chunks.foldl update st = update st chunks.flatten := by
  induction chunks generalizing st with
  | nil => simp [update_nil]
  | cons c cs ih =>
    simp only [List.foldl_cons, List.flatten_cons, ih, update_append]

end Crypto

namespace Crypto

theorem toBytesBE_one (n : Nat) : toBytesBE 1 n = [n % 256] := rfl

theorem toBytesBE_two (n : Nat) :
    toBytesBE 2 n = [(n >>> 8) % 256, (n >>> 0) % 256] := rfl

theorem toBytesBE_four (n : Nat) :
    toBytesBE 4 n = [(n >>> 24) % 256, (n >>> 16) % 256, (n >>> 8) % 256,
      (n >>> 0) % 256] := rfl

theorem toBytesBE_eight (n : Nat) :
    toBytesBE 8 n = [(n >>> 56) % 256, (n >>> 48) % 256, (n >>> 40) % 256,
      (n >>> 32) % 256, (n >>> 24) % 256, (n >>> 16) % 256, (n >>> 8) % 256,
      (n >>> 0) % 256] := rfl

theorem toBytesBE_sixteen (n : Nat) :
    toBytesBE 16 n = [(n >>> 120) % 256, (n >>> 112) % 256,
      (n >>> 104) % 256, (n >>> 96) % 256, (n >>> 88) % 256,
      (n >>> 80) % 256, (n >>> 72) % 256, (n >>> 64) % 256,
      (n >>> 56) % 256, (n >>> 48) % 256, (n >>> 40) % 256,
      (n >>> 32) % 256, (n >>> 24) % 256, (n >>> 16) % 256, (n >>> 8) % 256,
      (n >>> 0) % 256] := rfl

theorem shiftRight_div (n k : Nat) : n >>> k = n / 2 ^ k :=
  Nat.shiftRight_eq_div_pow n k

/-- Claim C7: the `Hashable` canonical encodings hold -- every primitive
unsigned integer (widths 8, 16, 32, 64, 128) hashes as its width/8-byte
big-endian representation, every primitive signed integer (widths 8, 16,
32, 64, 128) hashes as its two's-complement bit pattern, a boolean
hashes as the single byte 1 or 0, and a `[u8]` slice of three elements
hashes as its three bytes in order with no length prefix or
separators. -/
theorem hashable_canonical_encodings :
    (∀ n : Nat, n < 256 → hash_u8 n = hash_bytes [n]) ∧
    (∀ n : Nat, n < 65536 → hash_u16 n = hash_bytes [n / 256, n % 256]) ∧
    (∀ n : Nat, n < 4294967296 → hash_u32 n =
      hash_bytes [n / 16777216, n / 65536 % 256, n / 256 % 256, n % 256]) ∧
    (∀ n : Nat, n < 18446744073709551616 → hash_u64 n =
      hash_bytes [n / 72057594037927936, n / 281474976710656 % 256,
        n / 1099511627776 % 256, n / 4294967296 % 256, n / 16777216 % 256,
        n / 65536 % 256, n / 256 % 256, n % 256]) ∧
    (∀ n : Nat, n < 340282366920938463463374607431768211456 → hash_u128 n =
      hash_bytes
        [n / 1329227995784915872903807060280344576,
         n / 5192296858534827628530496329220096 % 256,
         n / 20282409603651670423947251286016 % 256,
         n / 79228162514264337593543950336 % 256,
         n / 309485009821345068724781056 % 256,
         n / 1208925819614629174706176 % 256,
         n / 4722366482869645213696 % 256, n / 18446744073709551616 % 256,
         n / 72057594037927936 % 256, n / 281474976710656 % 256,
         n / 1099511627776 % 256, n / 4294967296 % 256, n / 16777216 % 256,
         n / 65536 % 256, n / 256 % 256, n % 256]) ∧
    (∀ z : Int, -128 ≤ z → z < 128 →
      hash_i8 z = hash_u8 ((z + 256) % 256).toNat) ∧
    (∀ z : Int, -32768 ≤ z → z < 32768 →
      hash_i16 z = hash_u16 ((z + 65536) % 65536).toNat) ∧
    (∀ z : Int, -2147483648 ≤ z → z < 2147483648 →
      hash_i32 z = hash_u32 ((z + 4294967296) % 4294967296).toNat) ∧
    (∀ z : Int, -9223372036854775808 ≤ z → z < 9223372036854775808 →
      hash_i64 z = hash_u64 ((z + 18446744073709551616) % 18446744073709551616).toNat) ∧
    (∀ z : Int, -170141183460469231731687303715884105728 ≤ z → z < 170141183460469231731687303715884105728 →
      hash_i128 z = hash_u128 ((z + 340282366920938463463374607431768211456) % 340282366920938463463374607431768211456).toNat) ∧
    (hash_bool true = hash_bytes [1] ∧ hash_bool false = hash_bytes [0]) ∧
    (∀ a b c : Nat, a < 256 → b < 256 → c < 256 →
      hash_slice_u8 [a, b, c] = hash_bytes [a, b, c]) := by
  refine ⟨?_, ?_, ?_, ?_, ?_, ?_, ?_, ?_, ?_, ?_, ⟨rfl, rfl⟩, ?_⟩
  · intro n h
    rw [hash_u8, u8_to_be_bytes, toBytesBE_one, Nat.mod_eq_of_lt h, hash_bytes]
  · intro n h
    have e1 : n >>> 8 = n / 256 := by rw [shiftRight_div]; norm_num
    have hl : toBytesBE 2 n = [n / 256, n % 256] := by
      rw [toBytesBE_two, e1, Nat.shiftRight_zero]
      simp only [List.cons.injEq, and_true]
      omega
    rw [hash_u16, u16_to_be_bytes, hl, hash_bytes]
  · intro n h
    have e1 : n >>> 24 = n / 16777216 := by rw [shiftRight_div]; norm_num
    have e2 : n >>> 16 = n / 65536 := by rw [shiftRight_div]; norm_num
    have e3 : n >>> 8 = n / 256 := by rw [shiftRight_div]; norm_num
    have hl : toBytesBE 4 n =
        [n / 16777216, n / 65536 % 256, n / 256 % 256, n % 256] := by
      rw [toBytesBE_four, e1, e2, e3, Nat.shiftRight_zero]
      simp only [List.cons.injEq, and_true]
      omega
    rw [hash_u32, u32_to_be_bytes, hl, hash_bytes]
  · intro n h
    have e1 : n >>> 56 = n / 72057594037927936 := by rw [shiftRight_div]; norm_num
    have e2 : n >>> 48 = n / 281474976710656 := by rw [shiftRight_div]; norm_num
    have e3 : n >>> 40 = n / 1099511627776 := by rw [shiftRight_div]; norm_num
    have e4 : n >>> 32 = n / 4294967296 := by rw [shiftRight_div]; norm_num
    have e5 : n >>> 24 = n / 16777216 := by rw [shiftRight_div]; norm_num
    have e6 : n >>> 16 = n / 65536 := by rw [shiftRight_div]; norm_num
    have e7 : n >>> 8 = n / 256 := by rw [shiftRight_div]; norm_num
    have hl : toBytesBE 8 n =
        [n / 72057594037927936, n / 281474976710656 % 256,
         n / 1099511627776 % 256, n / 4294967296 % 256, n / 16777216 % 256,
         n / 65536 % 256, n / 256 % 256, n % 256] := by
      rw [toBytesBE_eight, e1, e2, e3, e4, e5, e6, e7, Nat.shiftRight_zero]
      simp only [List.cons.injEq, and_true]
      omega
    rw [hash_u64, u64_to_be_bytes, hl, hash_bytes]
  · intro n h
    have e1 : n >>> 120 = n / 1329227995784915872903807060280344576 := by rw [shiftRight_div]; norm_num
    have e2 : n >>> 112 = n / 5192296858534827628530496329220096 := by rw [shiftRight_div]; norm_num
    have e3 : n >>> 104 = n / 20282409603651670423947251286016 := by rw [shiftRight_div]; norm_num
    have e4 : n >>> 96 = n / 79228162514264337593543950336 := by rw [shiftRight_div]; norm_num
    have e5 : n >>> 88 = n / 309485009821345068724781056 := by rw [shiftRight_div]; norm_num
    have e6 : n >>> 80 = n / 1208925819614629174706176 := by rw [shiftRight_div]; norm_num
    have e7 : n >>> 72 = n / 4722366482869645213696 := by rw [shiftRight_div]; norm_num
    have e8 : n >>> 64 = n / 18446744073709551616 := by rw [shiftRight_div]; norm_num
    have e9 : n >>> 56 = n / 72057594037927936 := by rw [shiftRight_div]; norm_num
    have e10 : n >>> 48 = n / 281474976710656 := by rw [shiftRight_div]; norm_num
    have e11 : n >>> 40 = n / 1099511627776 := by rw [shiftRight_div]; norm_num
    have e12 : n >>> 32 = n / 4294967296 := by rw [shiftRight_div]; norm_num
    have e13 : n >>> 24 = n / 16777216 := by rw [shiftRight_div]; norm_num
    have e14 : n >>> 16 = n / 65536 := by rw [shiftRight_div]; norm_num
    have e15 : n >>> 8 = n / 256 := by rw [shiftRight_div]; norm_num
    have hl : toBytesBE 16 n =
        [n / 1329227995784915872903807060280344576,
         n / 5192296858534827628530496329220096 % 256,
         n / 20282409603651670423947251286016 % 256,
         n / 79228162514264337593543950336 % 256,
         n / 309485009821345068724781056 % 256,
         n / 1208925819614629174706176 % 256,
         n / 4722366482869645213696 % 256, n / 18446744073709551616 % 256,
         n / 72057594037927936 % 256, n / 281474976710656 % 256,
         n / 1099511627776 % 256, n / 4294967296 % 256, n / 16777216 % 256,
         n / 65536 % 256, n / 256 % 256, n % 256] := by
      rw [toBytesBE_sixteen, e1, e2, e3, e4, e5, e6, e7, e8, e9, e10, e11, e12, e13, e14, e15, Nat.shiftRight_zero]
      simp only [List.cons.injEq, and_true]
      omega
    rw [hash_u128, u128_to_be_bytes, hl, hash_bytes]
  · intro z h1 h2
    have e : (z % 256).toNat = ((z + 256) % 256).toNat := by
      omega
    rw [hash_i8, i8_to_be_bytes, e, hash_u8, u8_to_be_bytes]
  · intro z h1 h2
    have e : (z % 65536).toNat = ((z + 65536) % 65536).toNat := by
      omega
    rw [hash_i16, i16_to_be_bytes, e, hash_u16, u16_to_be_bytes]
  · intro z h1 h2
    have e : (z % 4294967296).toNat = ((z + 4294967296) % 4294967296).toNat := by
      omega
    rw [hash_i32, i32_to_be_bytes, e, hash_u32, u32_to_be_bytes]
  · intro z h1 h2
    have e : (z % 18446744073709551616).toNat = ((z + 18446744073709551616) % 18446744073709551616).toNat := by
      omega
    rw [hash_i64, i64_to_be_bytes, e, hash_u64, u64_to_be_bytes]
  · intro z h1 h2
    have e : (z % 340282366920938463463374607431768211456).toNat = ((z + 340282366920938463463374607431768211456) % 340282366920938463463374607431768211456).toNat := by
      omega
    rw [hash_i128, i128_to_be_bytes, e, hash_u128, u128_to_be_bytes]
  · intro a b c ha hb hc
    have ea : u8_to_be_bytes a = [a] := by
      rw [u8_to_be_bytes, toBytesBE_one, Nat.mod_eq_of_lt ha]
    have eb : u8_to_be_bytes b = [b] := by
      rw [u8_to_be_bytes, toBytesBE_one, Nat.mod_eq_of_lt hb]
    have ec : u8_to_be_bytes c = [c] := by
      rw [u8_to_be_bytes, toBytesBE_one, Nat.mod_eq_of_lt hc]
    have hsplit : ([a] ++ ([b] ++ [c])) = [a, b, c] := rfl
    rw [hash_slice_u8, List.foldl_cons, List.foldl_cons, List.foldl_cons,
      List.foldl_nil, ea, eb, ec, hash_bytes, ← hsplit, update_append,
      update_append]

/-- Claim C7 witness: the encodings evaluated at concrete inputs. -/
theorem hashable_canonical_encodings_witness :
    hash_u32 16909060 = hash_bytes [1, 2, 3, 4] ∧
    hash_i8 (-1) = hash_u8 255 ∧
    hash_i128 (-1) = hash_u128 340282366920938463463374607431768211455 ∧
    hash_slice_u8 [5, 6, 7] = hash_bytes [5, 6, 7] :=
  ⟨hashable_canonical_encodings.2.2.1 16909060 (by decide),
   hashable_canonical_encodings.2.2.2.2.2.1 (-1) (by decide) (by decide),
   hashable_canonical_encodings.2.2.2.2.2.2.2.2.2.1 (-1) (by decide)
     (by decide),
   hashable_canonical_encodings.2.2.2.2.2.2.2.2.2.2.2 5 6 7 (by decide)
     (by decide) (by decide)⟩

theorem scheduleStep_length (ws : List Nat) :
    (scheduleStep ws).length = ws.length + 1 := by
  simp [scheduleStep]

theorem extendRounds_length (k : Nat) : ∀ ws : List Nat,
    (extendRounds k ws).length = ws.length + k := by
  induction k with
  | zero => intro ws; rfl
  | succ k ih =>
    intro ws
    show (extendRounds k (scheduleStep ws)).length = ws.length + (k + 1)
    rw [ih, scheduleStep_length]
    omega

theorem specW_lt16 (block : List Nat) (i : Nat) (hi : i < 16) :
    specW block i = loadWord block i := by
  rw [specW, if_pos hi]

theorem specW_ge16 (block : List Nat) (n : Nat) (hn : 16 ≤ n) :
    specW block n = (specW block (n - 16) +
      specSigmaSmall0 (specW block (n - 15)) + specW block (n - 7) +
      specSigmaSmall1 (specW block (n - 2))) % 4294967296 := by
  rw [specW, if_neg (by omega)]

theorem extendRounds_getD (block : List Nat) (k : Nat) : ∀ ws : List Nat,
    16 ≤ ws.length →
    (∀ i, i < ws.length → ws.getD i 0 = specW block i) →
    ∀ i, i < ws.length + k → (extendRounds k ws).getD i 0 = specW block i := by
  induction k with
  | zero =>
    intro ws _ hws i hi
    exact hws i (by omega)
  | succ k ih =>
    intro ws hlen hws i hi
    show (extendRounds k (scheduleStep ws)).getD i 0 = specW block i
    refine ih (scheduleStep ws) (by rw [scheduleStep_length]; omega) ?_ i
      (by rw [scheduleStep_length]; omega)
    intro j hj
    rw [scheduleStep_length] at hj
    unfold scheduleStep
    rcases Nat.lt_or_ge j ws.length with hc | hc
    · rw [List.getD_append _ _ _ _ hc]
      exact hws j hc
    · have hj2 : j = ws.length := by omega
      subst hj2
      rw [List.getD_append_right _ _ _ _ le_rfl, Nat.sub_self]
      have e16 : ws.getD (ws.length - 16) 0 = specW block (ws.length - 16) :=
        hws (ws.length - 16) (by omega)
      have e15 : ws.getD (ws.length - 15) 0 = specW block (ws.length - 15) :=
        hws (ws.length - 15) (by omega)
      have e7 : ws.getD (ws.length - 7) 0 = specW block (ws.length - 7) :=
        hws (ws.length - 7) (by omega)
      have e2 : ws.getD (ws.length - 2) 0 = specW block (ws.length - 2) :=
        hws (ws.length - 2) (by omega)
      show add32 (add32 (add32 (ws.getD (ws.length - 16) 0)
          (gamma0 (ws.getD (ws.length - 15) 0))) (ws.getD (ws.length - 7) 0))
          (gamma1 (ws.getD (ws.length - 2) 0)) = specW block ws.length
      rw [e16, e15, e7, e2, specW_ge16 block ws.length (by omega)]
      simp only [add32, M32, gamma0, gamma1, specSigmaSmall0, specSigmaSmall1]
      omega

theorem schedule_length (block : List Nat) : (schedule block).length = 64 := by
  show (extendRounds 48 ((List.range 16).map (loadWord block))).length = 64
  rw [extendRounds_length]
  simp

theorem schedule_getD (block : List Nat) (i : Nat) (hi : i < 64) :
    (schedule block).getD i 0 = specW block i := by
  refine extendRounds_getD block 48 ((List.range 16).map (loadWord block))
    (by simp) ?_ i (by simp; omega)
  intro j hj
  simp only [List.length_map, List.length_range] at hj
  rw [List.getD_eq_getElem _ _ (by simp [hj])]
  simp only [List.getElem_map, List.getElem_range]
  rw [specW, if_pos hj]

theorem round_eq_specRound (block : List Nat) (i : Nat) (hi : i < 64)
    (r : Regs) :
    round (schedule block) r i = specRound (specW block) i r := by
  unfold round specRound
  rw [schedule_getD block i hi]
  dsimp only
  rw [Regs.mk.injEq]
  refine ⟨?_, rfl, rfl, rfl, ?_, rfl, rfl, rfl⟩
  · simp only [add32, M32, sigma1, specSigmaBig1, ch, specCh, sigma0,
      specSigmaBig0, maj, specMaj]
    omega
  · simp only [add32, M32, sigma1, specSigmaBig1, ch, specCh]
    omega

theorem foldl_round_eq_specRounds (block : List Nat) (r0 : Regs) (n : Nat)
    (hn : n ≤ 64) :
    (List.range n).foldl (round (schedule block)) r0 =
      specRounds (specW block) n r0 := by
  induction n with
  | zero => rfl
  | succ n ih =>
    rw [List.range_succ, List.foldl_append, List.foldl_cons, List.foldl_nil,
      ih (by omega)]
    show round (schedule block) (specRounds (specW block) n r0) n =
      specRounds (specW block) (n + 1) r0
    rw [round_eq_specRound block n (by omega)]
    rfl

/-- Claim C5: `update_block` computes exactly the FIPS 180-4 SHA-256
compression function -- big-endian word loads, the `W` extension
recurrence, the 64 rounds with the `K` constants and the `Ch`/`Maj`/`Σ`
helpers, and the final wrapping add-back, all modulo `2^32`. -/
theorem update_block_implements_fips (st : SHA256) (block : List Nat) :
    update_block st block = { st with hash := specCompress st.hash block } := by
  show SHA256.mk st.len st.buffer _ = SHA256.mk st.len st.buffer _
  rw [SHA256.mk.injEq]
  refine ⟨rfl, rfl, ?_⟩
  show (let ws := schedule block
    let r0 : Regs := ⟨st.hash.getD 0 0, st.hash.getD 1 0, st.hash.getD 2 0,
      st.hash.getD 3 0, st.hash.getD 4 0, st.hash.getD 5 0, st.hash.getD 6 0,
      st.hash.getD 7 0⟩
    let r := (List.range 64).foldl (round ws) r0
    [add32 (st.hash.getD 0 0) r.a, add32 (st.hash.getD 1 0) r.b,
     add32 (st.hash.getD 2 0) r.c, add32 (st.hash.getD 3 0) r.d,
     add32 (st.hash.getD 4 0) r.e, add32 (st.hash.getD 5 0) r.f,
     add32 (st.hash.getD 6 0) r.g, add32 (st.hash.getD 7 0) r.h]) =
    specCompress st.hash block
  simp only
  rw [foldl_round_eq_specRounds block _ 64 le_rfl]
  rfl

/-- Claim C6: at finalization `digest` pads per the spec -- the tail
`buffer[0 .. len mod 64]` goes into a zeroed block with `0x80` at its
length, an extra all-zero block is compressed exactly when the tail
length is at least 56, the 64-bit big-endian bit length fills the last 8
bytes of the final block, and the 8 state words are emitted big-endian;
the digest equals folding the compression over these spec padding
blocks. -/
theorem digest_padding_spec (st : SHA256) (hbuf : st.buffer.length = 64) :
    digest st =
      (((specPadBlocks (st.buffer.take (st.len % 64))
          (st.len * 8 % 18446744073709551616)).foldl update_block st).hash.map
        (toBytesBE 4)).flatten ∧
    ((specPadBlocks (st.buffer.take (st.len % 64))
        (st.len * 8 % 18446744073709551616)).length = 2 ↔ 56 ≤ st.len % 64) := by
  have hT : (st.buffer.take (st.len % 64)).length = st.len % 64 := by
    rw [List.length_take, hbuf, min_eq_left (by omega)]
  constructor
  · rw [digest, specPadBlocks]
    by_cases h : 56 ≤ (st.buffer.take (st.len % 64)).length
    · rw [if_pos h, if_pos h]
      rw [List.foldl_cons, List.foldl_cons, List.foldl_nil]
    · rw [if_neg h, if_neg h]
      rw [List.foldl_cons, List.foldl_nil]
  · rw [specPadBlocks]
    by_cases h : 56 ≤ (st.buffer.take (st.len % 64)).length
    · rw [if_pos h]
      simp only [List.length_cons, List.length_nil]
      rw [hT] at h
      simp [h]
    · rw [if_neg h]
      simp only [List.length_cons, List.length_nil]
      rw [hT] at h
      simp [h]

/-- Claim C6 witness: a 56-byte input goes through the extra-block
branch. -/
theorem digest_padding_spec_witness :
    digest (update new (List.replicate 56 7)) =
      (((specPadBlocks ((update new (List.replicate 56 7)).buffer.take
          ((update new (List.replicate 56 7)).len % 64))
          ((update new (List.replicate 56 7)).len * 8 % 18446744073709551616)).foldl
        update_block (update new (List.replicate 56 7))).hash.map
        (toBytesBE 4)).flatten ∧
    ((specPadBlocks ((update new (List.replicate 56 7)).buffer.take
        ((update new (List.replicate 56 7)).len % 64))
        ((update new (List.replicate 56 7)).len * 8 % 18446744073709551616)).length
        = 2 ↔
      56 ≤ (update new (List.replicate 56 7)).len % 64) :=
  digest_padding_spec (update new (List.replicate 56 7)) (by decide)

theorem sliceCheck_some (l : List Nat) (a b : Nat) (h1 : a ≤ b)
    (h2 : b ≤ l.length) : sliceCheck l a b = some ((l.take b).drop a) := by
  rw [sliceCheck, if_pos ⟨h1, h2⟩]

theorem copyWithin_some (dst : List Nat) (a b : Nat) (src : List Nat)
    (h1 : a ≤ b) (h2 : b ≤ dst.length) (h3 : src.length = b - a) :
    copyWithin dst a b src = some (writeBytes dst a src) := by
  rw [copyWithin, if_pos ⟨h1, h2, h3⟩]

theorem setChecked_some (l : List Nat) (i v : Nat) (h : i < l.length) :
    setChecked l i v = some (l.set i v) := by
  rw [setChecked, if_pos h]

theorem mapM_eq_map_of_some {α β : Type} (f : α → Option β) (g : α → β) :
    ∀ l : List α, (∀ x ∈ l, f x = some (g x)) → l.mapM f = some (l.map g) := by
  intro l
  induction l with
  | nil => intro _; rfl
  | cons x l ih =>
    intro h
    rw [List.map_cons, List.mapM_cons, h x (List.mem_cons_self _ _),
      ih (fun y hy => h y (List.mem_cons_of_mem _ hy))]
    rfl

theorem loadWordChecked_some (block : List Nat) (hb : block.length = 64)
    (i : Nat) (hi : i < 16) :
    loadWordChecked block i = some (loadWord block i) := by
  rw [loadWordChecked, loadWord,
    List.getElem?_eq_getElem (by omega), List.getElem?_eq_getElem (by omega),
    List.getElem?_eq_getElem (by omega), List.getElem?_eq_getElem (by omega),
    List.getD_eq_getElem _ _ (by omega), List.getD_eq_getElem _ _ (by omega),
    List.getD_eq_getElem _ _ (by omega), List.getD_eq_getElem _ _ (by omega)]

theorem update_blockChecked_some (st : SHA256) (block : List Nat)
    (hb : block.length = 64) :
    update_blockChecked st block = some (update_block st block) := by
  rw [update_blockChecked,
    mapM_eq_map_of_some (loadWordChecked block) (loadWord block)
      (List.range 16)
      (fun i hi => loadWordChecked_some block hb i (by
        simpa using List.mem_range.mp hi))]
  rfl

theorem update_block_WF (st : SHA256) (block : List Nat) (h : WF st) :
    WF (update_block st block) :=
  ⟨h.1, rfl⟩

theorem toBytesBE_length (k n : Nat) : (toBytesBE k n).length = k := by
  simp [toBytesBE]

theorem updateFuelChecked_eq (fuel : Nat) :
    ∀ (data : List Nat) (st : SHA256), data.length ≤ fuel → WF st →
      st.len + data.length < 18446744073709551616 →
      updateFuelChecked fuel st data = some (updateFuel fuel st data) ∧
        WF (updateFuel fuel st data) ∧
        (updateFuel fuel st data).len = st.len + data.length := by
  induction fuel with
  | zero =>
    intro data st hlen hwf hov
    have : data = [] := List.length_eq_zero.mp (by omega)
    subst this
    exact ⟨rfl, hwf, by simp [updateFuel]⟩
  | succ fuel ih =>
    intro data st hlen hwf hov
    by_cases hd : data.isEmpty
    · rw [List.isEmpty_iff] at hd
      subst hd
      refine ⟨rfl, hwf, ?_⟩
      simp [updateFuel]
    · have hd2 : ¬ data = [] := by simpa using hd
      have hpos : 0 < data.length := List.length_pos.mpr hd2
      rw [updateFuel, updateFuelChecked, if_neg hd, if_neg hd]
      dsimp only
      set m := min (64 - st.len % 64) data.length with hm
      have hm1 : 1 ≤ m := by
        rw [hm]
        exact le_min (by omega) hpos
      have hm2 : m ≤ data.length := by
        rw [hm]
        exact min_le_right _ _
      have hm3 : m ≤ 64 - st.len % 64 := by
        rw [hm]
        exact min_le_left _ _
      have htlen : (data.take m).length = m := by
        rw [List.length_take]
        exact min_eq_left hm2
      have hbuf2 : (writeBytes st.buffer (st.len % 64) (data.take m)).length
          = 64 := by
        rw [writeBytes_length _ _ _ (by rw [htlen, hwf.1]; omega), hwf.1]
      rw [sliceCheck_some data 0 m (by omega) hm2, List.drop_zero]
      dsimp only
      rw [copyWithin_some st.buffer (st.len % 64) (st.len % 64 + m)
        (data.take m) (by omega) (by rw [hwf.1]; omega)
        (by rw [htlen]; omega)]
      dsimp only
      rw [if_pos (by omega)]
      set st1 : SHA256 :=
        ⟨st.len + m, writeBytes st.buffer (st.len % 64) (data.take m),
          st.hash⟩ with hst1
      have hst1len : st1.len = st.len + m := rfl
      have hwf1 : WF st1 := ⟨hbuf2, hwf.2⟩
      by_cases hmod : st1.len % 64 = 0
      · rw [if_pos hmod, if_pos hmod,
          update_blockChecked_some st1 st1.buffer hbuf2]
        dsimp only
        have hwf2 : WF (update_block st1 st1.buffer) :=
          update_block_WF st1 st1.buffer hwf1
        obtain ⟨e1, e2, e3⟩ := ih (data.drop m) (update_block st1 st1.buffer)
          (by rw [List.length_drop]; omega) hwf2
          (by rw [update_block_len, List.length_drop, hst1len]; omega)
        refine ⟨e1, e2, ?_⟩
        rw [e3, update_block_len, List.length_drop, hst1len]
        omega
      · rw [if_neg hmod, if_neg hmod]
        obtain ⟨e1, e2, e3⟩ := ih (data.drop m) st1
          (by rw [List.length_drop]; omega) hwf1
          (by rw [List.length_drop, hst1len]; omega)
        refine ⟨e1, e2, ?_⟩
        rw [e3, List.length_drop, hst1len]
        omega

theorem digestChecked_eq (st : SHA256) (hwf : WF st) :
    digestChecked st = some (digest st) := by
  have hlenm : st.len % 64 < 64 := by omega
  have htail : (st.buffer.take (st.len % 64)).length = st.len % 64 := by
    rw [List.length_take]
    exact min_eq_left (by have h64 := hwf.1; omega)
  have hp0 : (writeBytes blockZero 0 (st.buffer.take (st.len % 64))).length
      = 64 := by
    rw [writeBytes_length]
    · rfl
    · rw [htail]
      show 0 + st.len % 64 ≤ 64
      omega
  have hp1 : ((writeBytes blockZero 0 (st.buffer.take (st.len % 64))).set
      (st.buffer.take (st.len % 64)).length 0x80).length = 64 := by
    rw [List.length_set, hp0]
  rw [digestChecked, digest]
  try dsimp only
  rw [sliceCheck_some st.buffer 0 (st.len % 64) (by omega)
    (by have h64 := hwf.1; omega), List.drop_zero]
  try dsimp only
  rw [copyWithin_some blockZero 0 (st.buffer.take (st.len % 64)).length
    (st.buffer.take (st.len % 64)) (by omega) (by rw [htail]; show _ ≤ 64; omega)
    (by omega)]
  try dsimp only
  rw [setChecked_some _ _ _ (by rw [hp0, htail]; omega)]
  try dsimp only
  by_cases hb : 56 ≤ (st.buffer.take (st.len % 64)).length
  · rw [if_pos hb, if_pos hb, update_blockChecked_some st _ hp1]
    simp only [Option.map_some']
    rw [copyWithin_some blockZero 56 64 _ (by omega) (by rfl)
      (by rw [toBytesBE_length])]
    try dsimp only
    rw [update_blockChecked_some _ _
      (by rw [writeBytes_length _ _ _ (by rw [toBytesBE_length]; rfl)]; rfl)]
  · rw [if_neg hb, if_neg hb]
    try dsimp only
    rw [copyWithin_some _ 56 64 _ (by omega) (by rw [hp1]) (by rw [toBytesBE_length])]
    try dsimp only
    rw [update_blockChecked_some _ _
      (by rw [writeBytes_length _ _ _ (by rw [toBytesBE_length, hp1])]; rw [hp1])]

/-- Claim C9: the hashing path is total and failure-free -- starting
from a well-formed state (64-byte buffer, 8-word hash, as the Rust array
types enforce), every bounds-checked slice and array access inside
`update`, `update_block` and `digest` is in bounds (the checked variants
return `some` and agree with the unchecked ones), for inputs whose total
length stays within the `u64` byte counter. -/
theorem hashing_path_no_panic :
    WF new ∧
    (∀ (st : SHA256) (data : List Nat), WF st →
      st.len + data.length < 18446744073709551616 →
      updateChecked st data = some (update st data) ∧ WF (update st data) ∧
        (update st data).len = st.len + data.length) ∧
    (∀ st : SHA256, WF st → digestChecked st = some (digest st)) := by
  refine ⟨⟨rfl, rfl⟩, ?_, digestChecked_eq⟩
  intro st data hwf hov
  exact updateFuelChecked_eq data.length data st le_rfl hwf hov

/-- Claim C9 witness: the checked path at a concrete state and input. -/
theorem hashing_path_no_panic_witness :
    updateChecked new [1, 2, 3] = some (update new [1, 2, 3]) ∧
    WF (update new [1, 2, 3]) ∧
    (update new [1, 2, 3]).len = new.len + ([1, 2, 3] : List Nat).length ∧
    digestChecked new = some (digest new) :=
  ⟨(hashing_path_no_panic.2.1 new [1, 2, 3] (by decide) (by decide)).1,
   (hashing_path_no_panic.2.1 new [1, 2, 3] (by decide) (by decide)).2.1,
   (hashing_path_no_panic.2.1 new [1, 2, 3] (by decide) (by decide)).2.2,
   hashing_path_no_panic.2.2 new (by decide)⟩

end Crypto

namespace CoreCrypto

theorem isHex_lt (c : Nat) (h : isHex c) : c < 103 := by
  rcases h with ⟨h1, h2⟩ | ⟨h1, h2⟩ | ⟨h1, h2⟩ <;> omega

theorem hexchar_decode : ∀ m < 16,
    hex_digit_to_u8 (hexCharOfNibble m) = .ok m := by decide

theorem nibble_recombine : ∀ b < 256, (b / 16) <<< 4 ||| b % 16 = b := by decide

theorem nibble_split : ∀ hi < 16, ∀ lo < 16,
    (hi <<< 4 ||| lo) / 16 = hi ∧ (hi <<< 4 ||| lo) % 16 = lo ∧
      (hi <<< 4 ||| lo) < 256 := by decide

theorem hex_char_facts : ∀ c < 103, isHex c →
    hex_digit_to_u8 c = .ok (hexVal c) ∧
    hex_digit_to_u8_unchecked c = some (hexVal c) ∧ hexVal c < 16 ∧
    hexCharOfNibble (hexVal c) = toLowerAscii c := by decide

theorem hex_digit_err (c : Nat) (h : ¬ isHex c) :
    hex_digit_to_u8 c = .error ⟨.BadChar c⟩ := by
  unfold isHex at h
  unfold hex_digit_to_u8
  rw [if_neg (by omega), if_neg (by omega), if_neg (by omega),
    if_neg (by omega), if_neg (by omega), if_neg (by omega), if_neg (by omega)]

theorem format_cons (b : Nat) (d : List Nat) :
    format (b :: d) =
      hexCharOfNibble (b / 16) :: hexCharOfNibble (b % 16) :: format d := rfl

theorem format_length (d : List Nat) : (format d).length = 2 * d.length := by
  induction d with
  | nil => rfl
  | cons b d ih =>
    rw [format_cons]
    simp only [List.length_cons, ih]
    omega

theorem fromStrLoop_format (d : List Nat) (h : ∀ b ∈ d, b < 256) :
    fromStrLoop d.length (format d) = .ok d := by
  induction d with
  | nil => rfl
  | cons b d ih =>
    have hb : b < 256 := h b (List.mem_cons_self _ _)
    have hd : ∀ x ∈ d, x < 256 := fun x hx => h x (List.mem_cons_of_mem _ hx)
    rw [format_cons, List.length_cons]
    simp only [fromStrLoop, hexchar_decode (b / 16) (by omega),
      hexchar_decode (b % 16) (by omega), ih hd, nibble_recombine b hb]

theorem hexLoops_ok (n : Nat) : ∀ s : List Nat, s.length = 2 * n →
    (∀ c ∈ s, isHex c) →
    ∃ d, fromStrLoop n s = .ok d ∧ fromStrUncheckedLoop n s = some d ∧
      d.length = n ∧ (∀ b ∈ d, b < 256) ∧ format d = s.map toLowerAscii := by
  induction n with
  | zero =>
    intro s hlen hhex
    have : s = [] := List.length_eq_zero.mp (by omega)
    subst this
    exact ⟨[], rfl, rfl, rfl, by simp, rfl⟩
  | succ n ih =>
    intro s hlen hhex
    match s, hlen with
    | c0 :: c1 :: rest, hlen =>
      have h0 : isHex c0 := hhex c0 (by simp)
      have h1 : isHex c1 := hhex c1 (by simp)
      have hrest : ∀ c ∈ rest, isHex c := fun c hc => hhex c (by simp [hc])
      have hrlen : rest.length = 2 * n := by
        simp only [List.length_cons] at hlen
        omega
      obtain ⟨d, hd1, hd2, hd3, hd4, hd5⟩ := ih rest hrlen hrest
      obtain ⟨e0a, e0b, e0c, e0d⟩ := hex_char_facts c0 (isHex_lt c0 h0) h0
      obtain ⟨e1a, e1b, e1c, e1d⟩ := hex_char_facts c1 (isHex_lt c1 h1) h1
      obtain ⟨s1, s2, s3⟩ := nibble_split (hexVal c0) e0c (hexVal c1) e1c
      refine ⟨(hexVal c0 <<< 4 ||| hexVal c1) :: d, ?_, ?_, ?_, ?_, ?_⟩
      · simp only [fromStrLoop, e0a, e1a, hd1]
      · simp only [fromStrUncheckedLoop, e0b, e1b, hd2]
      · simp only [List.length_cons, hd3]
      · intro b hb
        rcases List.mem_cons.mp hb with hb | hb
        · omega
        · exact hd4 b hb
      · rw [format_cons, s1, s2, e0d, e1d, hd5]
        rfl

theorem fromStrLoop_firstBad (n : Nat) : ∀ (s : List Nat) (c : Nat),
    s.length = 2 * n →
    s.find? (fun x => ! decide (isHex x)) = some c →
    fromStrLoop n s = .error ⟨.BadChar c⟩ := by
  induction n with
  | zero =>
    intro s c hlen hfind
    have : s = [] := List.length_eq_zero.mp (by omega)
    subst this
    simp at hfind
  | succ n ih =>
    intro s c hlen hfind
    match s, hlen with
    | c0 :: c1 :: rest, hlen =>
      have hrlen : rest.length = 2 * n := by
        simp only [List.length_cons] at hlen
        omega
      by_cases h0 : isHex c0
      · have hf0 : (fun x => ! decide (isHex x)) c0 = false := by
          simp [h0]
        rw [List.find?_cons_of_neg _ (by simpa using hf0)] at hfind
        obtain ⟨e0a, e0b, e0c, e0d⟩ := hex_char_facts c0 (isHex_lt c0 h0) h0
        by_cases h1 : isHex c1
        · have hf1 : (fun x => ! decide (isHex x)) c1 = false := by
            simp [h1]
          rw [List.find?_cons_of_neg _ (by simpa using hf1)] at hfind
          obtain ⟨e1a, e1b, e1c, e1d⟩ := hex_char_facts c1 (isHex_lt c1 h1) h1
          simp only [fromStrLoop, e0a, e1a, ih rest c hrlen hfind]
        · rw [List.find?_cons_of_pos _ (by simp [h1])] at hfind
          obtain rfl : c1 = c := Option.some.inj hfind
          simp only [fromStrLoop, e0a, hex_digit_err c1 h1]
      · rw [List.find?_cons_of_pos _ (by simp [h0])] at hfind
        obtain rfl : c0 = c := Option.some.inj hfind
        simp only [fromStrLoop, hex_digit_err c0 h0]

/-- Claim C3: hex round-trip -- parsing the `Display` output of any
32-byte digest returns the same digest, and formatting the digest parsed
from any valid 64-character hex string returns the lowercase folding of
that string. -/
theorem fixed_digest_hex_round_trip :
    (∀ d : List Nat, d.length = 32 → (∀ b ∈ d, b < 256) →
      from_str 32 (format d) = .ok d) ∧
    (∀ s : List Nat, s.length = 64 → (∀ c ∈ s, isHex c) →
      ∃ d, from_str 32 s = .ok d ∧ format d = s.map toLowerAscii) := by
  constructor
  · intro d hlen hb
    rw [from_str, if_neg (by rw [format_length, hlen]; omega), ← hlen]
    exact fromStrLoop_format d hb
  · intro s hlen hhex
    obtain ⟨d, hd1, _, _, _, hd5⟩ := hexLoops_ok 32 s (by omega) hhex
    exact ⟨d, by rw [from_str, if_neg (by omega)]; exact hd1, hd5⟩

/-- Claim C3 witness: the round-trips at concrete values. -/
theorem fixed_digest_hex_round_trip_witness :
    from_str 32 (format (List.replicate 32 171)) = .ok (List.replicate 32 171) ∧
    (∃ d, from_str 32 (asciiStr "ABCDEF0123456789abcdef0123456789ABCDEF0123456789abcdef0123456789")
        = .ok d ∧
      format d = (asciiStr "ABCDEF0123456789abcdef0123456789ABCDEF0123456789abcdef0123456789").map
        toLowerAscii) :=
  ⟨fixed_digest_hex_round_trip.1 (List.replicate 32 171) (by decide) (by decide),
   fixed_digest_hex_round_trip.2 _ (by decide) (by decide)⟩

/-- Claim C4: the checked parse fails exactly on invalid input -- a
length other than `2*N` yields `BadLength` with the actual length, a
correct length with a non-hex byte yields `BadCharacter` with the first
offending character in left-to-right order, and all-hex input of the
right length parses successfully. -/
theorem from_str_failure_characterization (N : Nat) (s : List Nat) :
    (s.length ≠ 2 * N → from_str N s = .error ⟨.BadLength s.length⟩) ∧
    (∀ c : Nat, s.length = 2 * N →
      s.find? (fun x => ! decide (isHex x)) = some c →
      from_str N s = .error ⟨.BadChar c⟩) ∧
    (s.length = 2 * N → (∀ c ∈ s, isHex c) →
      ∃ d, from_str N s = .ok d ∧ d.length = N) := by
  refine ⟨?_, ?_, ?_⟩
  · intro h
    rw [from_str, if_pos h]
  · intro c hlen hfind
    rw [from_str, if_neg (by omega)]
    exact fromStrLoop_firstBad N s c hlen hfind
  · intro hlen hhex
    obtain ⟨d, hd1, _, hd3, _, _⟩ := hexLoops_ok N s hlen hhex
    exact ⟨d, by rw [from_str, if_neg (by omega)]; exact hd1, hd3⟩

/-- Claim C4 witness: the three parse outcomes at concrete strings. -/
theorem from_str_failure_characterization_witness :
    from_str 32 (asciiStr "ab") = .error ⟨.BadLength 2⟩ ∧
    from_str 1 (asciiStr "xy") = .error ⟨.BadChar 120⟩ ∧
    (∃ d, from_str 1 (asciiStr "fA") = .ok d ∧ d.length = 1) :=
  ⟨(from_str_failure_characterization 32 (asciiStr "ab")).1 (by decide),
   (from_str_failure_characterization 1 (asciiStr "xy")).2.1 120 (by decide) (by decide),
   (from_str_failure_characterization 1 (asciiStr "fA")).2.2 (by decide) (by decide)⟩

/-- Claim C8: on valid input (length exactly `2*N`, all bytes hex) the
unchecked parse takes no out-of-bounds index and never reaches the
`unreachable` branch, and returns the same digest as the checked
parse. -/
theorem from_str_unchecked_refines_checked (N : Nat) (s : List Nat)
    (hlen : s.length = 2 * N) (hhex : ∀ c ∈ s, isHex c) :
    ∃ d, from_str_unchecked N s = some d ∧ from_str N s = .ok d := by
  obtain ⟨d, hd1, hd2, _, _, _⟩ := hexLoops_ok N s hlen hhex
  exact ⟨d, hd2, by rw [from_str, if_neg (by omega)]; exact hd1⟩

/-- Claim C8 witness: checked and unchecked parses agree on a concrete
valid string. -/
theorem from_str_unchecked_refines_checked_witness :
    ∃ d, from_str_unchecked 1 (asciiStr "Ff") = some d ∧
      from_str 1 (asciiStr "Ff") = .ok d :=
  from_str_unchecked_refines_checked 1 (asciiStr "Ff") (by decide) (by decide)

end CoreCrypto

theorem coreSha_roundFun_eq : CoreSha.round = Crypto.round := by
  funext ws r i
  rfl

theorem coreSha_scheduleStep_eq (ws : List Nat) :
    CoreSha.scheduleStep ws = Crypto.scheduleStep ws := rfl

theorem coreSha_extendRounds_eq (k : Nat) : ∀ ws : List Nat,
    CoreSha.extendRounds k ws = Crypto.extendRounds k ws := by
  induction k with
  | zero => intro ws; rfl
  | succ k ih =>
    intro ws
    show CoreSha.extendRounds k (CoreSha.scheduleStep ws) = _
    rw [coreSha_scheduleStep_eq, ih]
    rfl

theorem coreSha_schedule_eq (block : List Nat) :
    CoreSha.schedule block = Crypto.schedule block := by
  show CoreSha.extendRounds 48 ((List.range 16).map (CoreSha.loadWord block)) = _
  rw [coreSha_extendRounds_eq]
  rfl

theorem conv_update_block (st : Crypto.SHA256) (block : List Nat) :
    CoreSha.update_block (conv st) block = conv (Crypto.update_block st block) := by
  unfold CoreSha.update_block Crypto.update_block
  rw [coreSha_roundFun_eq, coreSha_schedule_eq]
  rfl

theorem conv_updateFuel (fuel : Nat) : ∀ (data : List Nat) (st : Crypto.SHA256),
    CoreSha.updateFuel fuel (conv st) data = conv (Crypto.updateFuel fuel st data) := by
  induction fuel with
  | zero => intro data st; rfl
  | succ fuel ih =>
    intro data st
    rw [CoreSha.updateFuel, Crypto.updateFuel]
    by_cases hd : data.isEmpty
    · rw [if_pos hd, if_pos hd]
    · rw [if_neg hd, if_neg hd]
      dsimp only [conv]
      by_cases hmod : (st.len + min (64 - st.len % 64) data.length) % 64 = 0
      · rw [if_pos hmod, if_pos hmod]
        rw [show (⟨st.len + min (64 - st.len % 64) data.length,
            writeBytes st.buffer (st.len % 64)
              (data.take (min (64 - st.len % 64) data.length)),
            st.hash⟩ : CoreSha.SHA256) =
          conv ⟨st.len + min (64 - st.len % 64) data.length,
            writeBytes st.buffer (st.len % 64)
              (data.take (min (64 - st.len % 64) data.length)),
            st.hash⟩ from rfl]
        rw [conv_update_block, ih]
        rfl
      · rw [if_neg hmod, if_neg hmod]
        rw [show (⟨st.len + min (64 - st.len % 64) data.length,
            writeBytes st.buffer (st.len % 64)
              (data.take (min (64 - st.len % 64) data.length)),
            st.hash⟩ : CoreSha.SHA256) =
          conv ⟨st.len + min (64 - st.len % 64) data.length,
            writeBytes st.buffer (st.len % 64)
              (data.take (min (64 - st.len % 64) data.length)),
            st.hash⟩ from rfl]
        rw [ih]
        rfl

theorem conv_update (st : Crypto.SHA256) (data : List Nat) :
    CoreSha.update (conv st) data = conv (Crypto.update st data) :=
  conv_updateFuel data.length data st

theorem conv_digest (st : Crypto.SHA256) :
    CoreSha.digest (conv st) = Crypto.digest st := by
  rw [CoreSha.digest, Crypto.digest]
  dsimp only [conv]
  by_cases h : 56 ≤ (st.buffer.take (st.len % 64)).length
  · rw [if_pos h, if_pos h]
    rw [show (⟨st.len, st.buffer, st.hash⟩ : CoreSha.SHA256) = conv st from rfl,
      conv_update_block]
    dsimp only
    rw [show (conv (Crypto.update_block st
        ((writeBytes blockZero 0 (st.buffer.take (st.len % 64))).set
          (st.buffer.take (st.len % 64)).length 0x80))) =
      conv (Crypto.update_block st _) from rfl, conv_update_block]
    rfl
  · rw [if_neg h, if_neg h]
    rw [show (⟨st.len, st.buffer, st.hash⟩ : CoreSha.SHA256) = conv st from rfl,
      conv_update_block]
    rfl

/-- Claim C10: the two SHA-256 source variants are equivalent -- for
every sequence of update chunks, the `crypto` crate engine and the
`core` crate engine produce byte-identical 32-byte digests. -/
theorem engines_equivalent (chunks : List (List Nat)) :
    CoreSha.digest (chunks.foldl CoreSha.update CoreSha.new) =
      Crypto.digest (chunks.foldl Crypto.update Crypto.new) := by
  have hfold : ∀ (cs : List (List Nat)) (st : Crypto.SHA256),
      cs.foldl CoreSha.update (conv st) = conv (cs.foldl Crypto.update st) := by
    intro cs
    induction cs with
    | nil => intro st; rfl
    | cons c cs ih =>
      intro st
      rw [List.foldl_cons, List.foldl_cons, conv_update, ih]
  rw [show CoreSha.new = conv Crypto.new from rfl, hfold, conv_digest]

/-- Claim C1: the known-answer vectors -- `hash_bytes` of the empty
input has hex form `e3b0...b855`, and `hash_bytes` of `"abc"` has hex
form `ba78...15ad`. -/
theorem sha256_known_answer_vectors :
    CoreCrypto.format (Crypto.hash_bytes []) =
      asciiStr "e3b0c44298fc1c149afbf4c8996fb92427ae41e4649b934ca495991b7852b855" ∧
    CoreCrypto.format (Crypto.hash_bytes [0x61, 0x62, 0x63]) =
      asciiStr "ba7816bf8f01cfea414140de5dae2223b00361a396177a9cb410ff61f20015ad" := by
  constructor <;> decide

/-- Claim C2: splitting invariance -- for every byte sequence and every
way of splitting it into consecutive chunks (empty chunks included),
feeding the chunks one `update` at a time and then taking `digest`
equals `hash_bytes` of the concatenation. -/
theorem sha256_splitting_invariance (chunks : List (List Nat)) :
    Crypto.digest (chunks.foldl Crypto.update Crypto.new) =
      Crypto.hash_bytes chunks.flatten := by
  rw [Crypto.foldl_update_flatten]
  rfl

end OsCrypto
